import Mathlib

/-!
Verification of the Selection & Ordering Synchronization Engine of the
BeamerPi playlist editor (`app/static/js/playlist_form.js`).

The DOM state touched by the script is embedded shallowly:

* a catalog entry is identified by its `data-video-path` string (`path`);
  its native checkbox state is a `Bool`;
* the selected-panel list (`[data-selected-videos-list]`) is the ordered
  list of the `data-selected-video-item` attributes of its children, so it
  is embedded as a `List String`; `selectedEntryMap` membership coincides
  with membership in that list in every reachable state, so it is not
  modelled separately;
* the hidden submission inputs produced by `refreshOrderedInputs` are a
  `List (String × String)` of (field name, value) pairs;
* the server-supplied `data-initial-order` attribute is modelled by the
  outcome of `JSON.parse` on it (a `JsVal`), since the claims only speak
  about the parsed value;
* a thrown JavaScript `TypeError` is embedded as `Except.error`.

Modelling assumptions, stated once: the page template always contains the
playlist editor root, the selected list, and the hidden-inputs container
(the claims under study concern the *search* elements being absent, not
these); every catalog entry row contains its checkbox `input[name="videos"]`;
catalog paths are unique (the `fileEntryMap` construction deduplicates by
path, and the server renders each video once).
-/

namespace BeamerPi

/-! ## JavaScript values and the parsed initial order -/

/-- Result of `JSON.parse`: the values that matter to `applyInitialOrder`.
Array elements other than strings are kept abstract: `itemsByPath` is keyed
by strings, so a non-string element never matches an item and is skipped;
object fields are likewise never read. -/
inductive JsVal where
  | jnull
  | jbool (b : Bool)
  | jnum (n : Int)
  | jstr (s : String)
  | jarr (elems : List JsVal)
  | jobj
deriving Inhabited

/-- The `data-initial-order` attribute of the selected list, described by
what `JSON.parse` does to it. `absent` also covers the empty attribute
string, which is falsy in the guard `!selectedList.dataset.initialOrder`. -/
inductive InitOrderAttr where
  | absent
  | malformed
  | parses (v : JsVal)
deriving Inhabited

/-- `selectedListInitialOrder` (playlist_form.js:33-42): missing/empty
attribute gives `[]`, a `JSON.parse` exception is caught and gives `[]`,
otherwise the parsed value is kept as is (no array check). -/
def selectedListInitialOrder : InitOrderAttr → JsVal
  | .absent => .jarr []
  | .malformed => .jarr []
  | .parses v => v

/-! ## Selection list operations -/

/-- `refreshOrderedInputs` (playlist_form.js:58-75): clear the hidden-inputs
container, then for each selected item in panel order append one hidden
input named `ordered_videos` holding its path; items whose
`data-selected-video-item` is empty are skipped. -/
def refreshOrderedInputs (sel : List String) : List (String × String) :=
  (sel.filter (fun p => p ≠ "")).map (fun p => ("ordered_videos", p))

/-- Core of `syncSelectedEntry` (playlist_form.js:186-206) acting on the
selected list: `checkedNow` is `entry.checkbox.checked` at call time;
`selectedEntryMap.get(path)` presence is list membership. Checked and
absent: build the item and `appendChild` it. Unchecked and present:
`item.remove()` and delete the map entry. -/
def syncSelectedEntry (checkedNow : Bool) (path : String) (sel : List String) :
    List String :=
  if checkedNow then
    if sel.contains path then sel else sel ++ [path]
  else
    if sel.contains path then sel.erase path else sel

/-- `item.previousElementSibling` within the selected list: the entry just
before the first occurrence of `id`. -/
def prevSiblingAux (prev : Option String) : List String → String → Option String
  | [], _ => none
  | x :: xs, id => if x = id then prev else prevSiblingAux (some x) xs id

def prevSibling (l : List String) (id : String) : Option String :=
  prevSiblingAux none l id

/-- `item.nextElementSibling`: the entry just after the first occurrence of
`id`. -/
def nextSibling : List String → String → Option String
  | [], _ => none
  | x :: xs, id => if x = id then xs.head? else nextSibling xs id

/-- `parent.insertBefore(node, ref)` once `node` has been detached: insert
`node` immediately before the first occurrence of `ref`. (In every use
below `ref` is present; the `[]` fallback is never reached.) -/
def insertBeforeRef : List String → String → String → List String
  | [], _, node => [node]
  | x :: xs, ref, node =>
    if x = ref then node :: x :: xs else x :: insertBeforeRef xs ref node

/-- `moveSelectedItem` (playlist_form.js:94-114) restricted to the list of
item paths. `direction < 0`: if there is no previous sibling, return
(without refreshing); else `insertBefore(item, previous)`. `direction > 0`:
if there is no next sibling, return; else `insertBefore(item, next.nextSibling)`,
where a `null` reference appends at the end. -/
def moveSelectedItem (sel : List String) (id : String) (dir : Int) : List String :=
  if dir < 0 then
    match prevSibling sel id with
    | none => sel
    | some p => insertBeforeRef (sel.erase id) p id
  else if dir > 0 then
    match nextSibling sel id with
    | none => sel
    | some n =>
      match nextSibling sel n with
      | none => sel.erase id ++ [id]
      | some nn => insertBeforeRef (sel.erase id) nn id
  else sel

/-- One step of the `selectedListInitialOrder.forEach` loop in
`applyInitialOrder` (playlist_form.js:224-229): `itemsByPath.get(path)` is
keyed by the string paths of the current items (membership is invariant
over the loop, since `appendChild` only moves nodes), so a string element
that has an item moves that item to the end of the list and every other
element is skipped. -/
def applyOrderStep (sel : List String) (v : JsVal) : List String :=
  match v with
  | .jstr s => if sel.contains s then sel.erase s ++ [s] else sel
  | _ => sel

/-- `applyInitialOrder` (playlist_form.js:208-233) on the selected list,
with JavaScript evaluation of `selectedListInitialOrder.length === 0` and
`.forEach` made explicit: reading `.length` of `null` throws; a non-array,
non-string value has `undefined` length (so the `=== 0` test is false) and
no `.forEach`, which throws; a string has a length but no `.forEach`, so a
non-empty string throws while the empty string takes the early refresh
path. A thrown `TypeError` is an `Except.error`. -/
def applyInitialOrder (sel : List String) (v : JsVal) : Except String (List String) :=
  match v with
  | .jarr elems =>
    .ok (if elems.length = 0 then sel else elems.foldl applyOrderStep sel)
  | .jstr s =>
    if s.length = 0 then .ok sel
    else .error "TypeError: selectedListInitialOrder.forEach is not a function"
  | .jnull => .error "TypeError: cannot read properties of null (reading length)"
  | _ => .error "TypeError: selectedListInitialOrder.forEach is not a function"

/-! ## Search filtering -/

/-- JavaScript `String.prototype.toLowerCase`, modelled as character-wise
lowercasing of the string's characters. -/
def jsToLowerCase (s : String) : String :=
  String.mk (s.data.map Char.toLower)

/-- Substring test on character lists: does `pat` occur contiguously in the
scanned list? Implements JavaScript `hay.includes(pat)`. -/
def listIncludes (pat : List Char) : List Char → Bool
  | [] => pat.isEmpty
  | c :: rest => List.isPrefixOf pat (c :: rest) || listIncludes pat rest

/-- JavaScript `hay.includes(pat)` on strings. -/
def strIncludes (hay pat : String) : Bool :=
  listIncludes pat.data hay.data

/-- JavaScript `String.prototype.trim`, modelled as dropping leading and
trailing whitespace characters from the string's character list. -/
def jsTrim (s : String) : String :=
  String.mk (((s.data.dropWhile Char.isWhitespace).reverse.dropWhile
    Char.isWhitespace).reverse)

/-! ## Whole-page state

`UiState` collects the DOM state the playlist-form script reads and writes:
the native checkbox states (by path), the checked state of the ephemeral
search-mirror proxies (by path; meaningful only for currently rendered
results, constantly `false` when no proxy is rendered), the selected-panel
list, the hidden inputs, the search input's value, and the search results
surface (its item paths and the `d-none` classes of the wrapper, the list
and the no-results alert). -/
structure UiState where
  checked : String → Bool
  mirrorChecked : String → Bool
  selection : List String
  hidden : List (String × String)
  searchValue : String
  results : List String
  wrapperHidden : Bool
  listHidden : Bool
  noResultsHidden : Bool
  wired : Bool
deriving Inhabited

/-- `clearResults` (playlist_form.js:448-454): empty the list, hide the
wrapper and the no-results alert. The list's own `d-none` class is left
untouched. Emptying the list destroys all mirror proxies. -/
def clearResults (st : UiState) : UiState :=
  { st with
    results := []
    mirrorChecked := fun _ => false
    wrapperHidden := true
    noResultsHidden := true }

/-- `updateResults` (playlist_form.js:456-484): lowercase the trimmed query;
a falsy (empty) query clears the results. Otherwise filter the catalog by
case-insensitive substring match on the path, show the wrapper, and either
show the no-results alert (hiding the list) or rebuild the list. Each
rebuilt proxy checkbox reads `entry.checkbox.checked` at build time. -/
def updateResults (entries : List String) (st : UiState) : UiState :=
  let query := jsToLowerCase (jsTrim st.searchValue)
  if query = "" then clearResults st
  else
    let found := entries.filter (fun p => strIncludes (jsToLowerCase p) query)
    if found = [] then
      { st with
        results := []
        mirrorChecked := fun _ => false
        wrapperHidden := false
        listHidden := true
        noResultsHidden := false }
    else
      { st with
        results := found
        mirrorChecked := st.checked
        wrapperHidden := false
        listHidden := false
        noResultsHidden := true }

/-- `syncSelectedEntry` on the whole state, with its guards: the selected
list and the entry's checkbox are present (modelling assumption), and an
empty `entry.path` returns before touching anything. `checkedNow` is the
value of `entry.checkbox.checked` read by the function. Ends by refreshing
the hidden inputs. -/
def syncWith (checkedNow : Bool) (path : String) (st : UiState) : UiState :=
  if path = "" then st
  else
    let sel := syncSelectedEntry checkedNow path st.selection
    { st with selection := sel, hidden := refreshOrderedInputs sel }

/-- The body of the per-entry `change` listener (playlist_form.js:490-495):
sync the entry from its current checkbox state, then re-render the search
results if a non-empty query is active. -/
def changeListener (entries : List String) (st : UiState) (path : String) : UiState :=
  let st1 := syncWith (st.checked path) path st
  if jsTrim st1.searchValue = "" then st1 else updateResults entries st1

/-- A user interaction with the native checkbox of `path`: the browser sets
its checked state to `b` and fires `change`, running the listener. -/
def nativeToggle (entries : List String) (st : UiState) (path : String) (b : Bool) :
    UiState :=
  changeListener entries { st with checked := fun x => if x = path then b else st.checked x } path

/-- A user interaction with the search-mirror proxy of `path`
(playlist_form.js:406-411): the proxy's own checked state becomes `b`, its
`change` handler copies that onto the native checkbox and dispatches a
synthetic `change` event, which runs the same listener synchronously. -/
def mirrorToggle (entries : List String) (st : UiState) (path : String) (b : Bool) :
    UiState :=
  let st1 := { st with mirrorChecked := fun x => if x = path then b else st.mirrorChecked x }
  changeListener entries
    { st1 with checked := fun x => if x = path then b else st1.checked x } path

/-- A click on a selected item's remove button (playlist_form.js:174-179):
set the native checkbox to `false` and dispatch `change`. -/
def removeClick (entries : List String) (st : UiState) (path : String) : UiState :=
  changeListener entries
    { st with checked := fun x => if x = path then false else st.checked x } path

/-- `moveSelectedItem` on the whole state: at a boundary the function
returns before `refreshOrderedInputs`, so the hidden inputs keep their
previous value; otherwise the move is followed by a refresh. A
`direction = 0` call falls through to the refresh alone. -/
def moveOp (st : UiState) (id : String) (dir : Int) : UiState :=
  if dir < 0 then
    match prevSibling st.selection id with
    | none => st
    | some p =>
      let sel := insertBeforeRef (st.selection.erase id) p id
      { st with selection := sel, hidden := refreshOrderedInputs sel }
  else if dir > 0 then
    match nextSibling st.selection id with
    | none => st
    | some n =>
      let sel :=
        match nextSibling st.selection n with
        | none => st.selection.erase id ++ [id]
        | some nn => insertBeforeRef (st.selection.erase id) nn id
      { st with selection := sel, hidden := refreshOrderedInputs sel }
  else { st with hidden := refreshOrderedInputs st.selection }

/-- `applyInitialOrder` on the whole state; on success the hidden inputs
are refreshed (both the early `length === 0` path and the `forEach` path
end in `refreshOrderedInputs`), on a throw the state is abandoned. -/
def applyInitialOrderOp (st : UiState) (v : JsVal) : Except String UiState :=
  match applyInitialOrder st.selection v with
  | .error e => .error e
  | .ok sel => .ok { st with selection := sel, hidden := refreshOrderedInputs sel }

/-- The three toggle-change surfaces of the editor. -/
inductive ToggleEv where
  | nativeEv (path : String) (b : Bool)
  | mirrorEv (path : String) (b : Bool)
  | removeEv (path : String)

def evPath : ToggleEv → String
  | .nativeEv p _ => p
  | .mirrorEv p _ => p
  | .removeEv p => p

def stepEv (entries : List String) (st : UiState) : ToggleEv → UiState
  | .nativeEv p b => nativeToggle entries st p b
  | .mirrorEv p b => mirrorToggle entries st p b
  | .removeEv p => removeClick entries st p

def runEvents (entries : List String) (st : UiState) (evs : List ToggleEv) : UiState :=
  evs.foldl (stepEv entries) st

/-- The server-rendered page, as far as the script reads it: the catalog
entries (path and initial checkbox state, in document order), whether the
three search elements (`[data-video-search-input]`, `-results`,
`-results-list]`) exist, the `data-initial-order` attribute, and the
initial values of the search surface (nothing is rendered into the results
list by the server). -/
structure PageConfig where
  entries : List (String × Bool)
  searchPresent : Bool
  initAttr : InitOrderAttr
  searchValue0 : String
  wrapperHidden0 : Bool
  listHidden0 : Bool
  noResultsHidden0 : Bool
deriving Inhabited

/-- The native checkbox states after server render, keyed by path (first
entry wins, matching `fileEntryMap` under unique paths). -/
def initChecked (entries : List (String × Bool)) : String → Bool :=
  fun id =>
    match entries.find? (fun e => e.1 = id) with
    | some e => e.2
    | none => false

/-- The `DOMContentLoaded` handler (playlist_form.js:1-509) restricted to
the selection engine. After the preview and folder wiring (which touch
none of this state) the handler hits the guard at line 377: if any of the
three search elements is missing it returns, leaving the checkbox
listeners unwired, the initial selection unsynced, the initial order
unapplied and the hidden inputs untouched. Otherwise it wires and syncs
every entry that has a checkbox (line 488-498), reading that entry's own
checkbox state, and then calls `applyInitialOrder` (line 500), whose throw
propagates out of the handler. -/
def initPage (cfg : PageConfig) : Except String UiState :=
  let st0 : UiState :=
    { checked := initChecked cfg.entries
      mirrorChecked := fun _ => false
      selection := []
      hidden := []
      searchValue := cfg.searchValue0
      results := []
      wrapperHidden := cfg.wrapperHidden0
      listHidden := cfg.listHidden0
      noResultsHidden := cfg.noResultsHidden0
      wired := false }
  if cfg.searchPresent = false then .ok st0
  else
    let st1 := cfg.entries.foldl (fun st e => syncWith e.2 e.1 st) { st0 with wired := true }
    applyInitialOrderOp st1 (selectedListInitialOrder cfg.initAttr)

/-- Decidable projection of an init outcome: (listeners wired, selected
list, hidden inputs); an init that threw reports `(false, [], [])`. -/
def pageSummary (r : Except String UiState) : Bool × List String × List (String × String) :=
  match r with
  | .error _ => (false, [], [])
  | .ok st => (st.wired, st.selection, st.hidden)

/-! ## Preview coordinator -/

/-- The preview modal and highlight state: whether the modal (and its video
element) exists on this page, whether it is open, the video source, whether
playback was started, the body scroll lock, the set of catalog rows
carrying the `preview-active` class, and `activePreviewEntry` (by path;
element identity coincides with path under unique paths, since both sides
of `activePreviewEntry.element !== entry.element` come from
`fileEntryMap`). -/
structure PreviewState where
  modalPresent : Bool
  modalOpen : Bool
  videoSrc : Option String
  playing : Bool
  bodyScrollLocked : Bool
  highlighted : String → Bool
  active : Option String
deriving Inhabited

/-- `closePreview` (playlist_form.js:262-273): no-op without a modal; else
pause, drop the source, hide the modal, unlock scrolling. The
`preview-active` class and `activePreviewEntry` are not touched. -/
def closePreview (st : PreviewState) : PreviewState :=
  if st.modalPresent = false then st
  else
    { st with playing := false, videoSrc := none, modalOpen := false,
              bodyScrollLocked := false }

/-- `highlightPreviewEntry` (playlist_form.js:237-253): empty paths and
paths without a catalog entry (`fileEntryMap.get` miss) are ignored; if a
different entry was active its class is removed; the new entry gets the
class and becomes active. -/
def highlightPreviewEntry (catalog : List String) (st : PreviewState) (path : String) :
    PreviewState :=
  if path = "" then st
  else if catalog.contains path = false then st
  else
    let st1 :=
      match st.active with
      | some p0 =>
        if p0 = path then st
        else { st with highlighted := fun x => if x = p0 then false else st.highlighted x }
      | none => st
    { st1 with
      highlighted := fun x => if x = path then true else st1.highlighted x
      active := some path }

/-- `openPreview` (playlist_form.js:275-292): requires the modal and a
non-empty source; sets the source, highlights the entry, opens the modal,
locks scrolling, and starts playback (a rejected play promise is
swallowed). -/
def openPreview (catalog : List String) (st : PreviewState) (videoSrc videoPath : String) :
    PreviewState :=
  if st.modalPresent = false then st
  else if videoSrc = "" then st
  else
    let st1 := highlightPreviewEntry catalog { st with videoSrc := some videoSrc } videoPath
    { st1 with modalOpen := true, bodyScrollLocked := true, playing := true }

/-! ## Basic facts about the embedded operations -/

theorem contains_eq_decide_mem (l : List String) (x : String) :
    l.contains x = decide (x ∈ l) := by
  simp [List.contains]

theorem applyOrderStep_mem (sel : List String) (v : JsVal) (x : String) :
    x ∈ applyOrderStep sel v ↔ x ∈ sel := by
  cases v with
  | jstr s =>
    by_cases hs : s ∈ sel
    · by_cases hx : x = s
      · subst hx
        simp [applyOrderStep, contains_eq_decide_mem, hs]
      · simp [applyOrderStep, contains_eq_decide_mem, hs, List.mem_append,
          List.mem_erase_of_ne hx, hx]
    · simp [applyOrderStep, contains_eq_decide_mem, hs]
  | jnull => exact Iff.rfl
  | jbool b => exact Iff.rfl
  | jnum n => exact Iff.rfl
  | jarr l => exact Iff.rfl
  | jobj => exact Iff.rfl

theorem applyOrderStep_nodup (sel : List String) (v : JsVal) (h : sel.Nodup) :
    (applyOrderStep sel v).Nodup := by
  cases v with
  | jstr s =>
    simp only [applyOrderStep]
    by_cases hs : sel.contains s
    · rw [if_pos hs, List.nodup_append]
      refine ⟨h.erase s, List.nodup_singleton s, ?_⟩
      intro a ha hb
      rw [List.mem_singleton] at hb
      subst hb
      exact (h.mem_erase_iff.mp ha).1 rfl
    · rw [if_neg hs]; exact h
  | jnull => exact h
  | jbool b => exact h
  | jnum n => exact h
  | jarr l => exact h
  | jobj => exact h

theorem foldl_applyOrderStep_mem (elems : List JsVal) :
    ∀ (sel : List String) (x : String),
      (x ∈ elems.foldl applyOrderStep sel ↔ x ∈ sel) := by
  induction elems with
  | nil => intro sel x; exact Iff.rfl
  | cons v vs ih =>
    intro sel x
    rw [List.foldl_cons]
    exact (ih _ x).trans (applyOrderStep_mem sel v x)

theorem foldl_applyOrderStep_nodup (elems : List JsVal) :
    ∀ sel : List String, sel.Nodup → (elems.foldl applyOrderStep sel).Nodup := by
  induction elems with
  | nil => intro sel h; exact h
  | cons v vs ih =>
    intro sel h
    rw [List.foldl_cons]
    exact ih _ (applyOrderStep_nodup sel v h)

/-- Exact effect of the `forEach` loop on a duplicate-free selection and a
duplicate-free order: every listed id that has an item is moved to the end
in listed order; unlisted items keep their relative order at the front. -/
theorem foldl_applyOrderStep_eq (order : List String) :
    ∀ sel : List String, sel.Nodup → order.Nodup →
      (order.map JsVal.jstr).foldl applyOrderStep sel
        = sel.filter (fun x => decide (x ∉ order))
            ++ order.filter (fun x => decide (x ∈ sel)) := by
  induction order with
  | nil =>
    intro sel _ _
    simp
  | cons o os ih =>
    intro sel hs ho
    rw [List.map_cons, List.foldl_cons]
    have hcons := List.nodup_cons.mp ho
    by_cases hmem : o ∈ sel
    · have hstep : applyOrderStep sel (.jstr o) = sel.erase o ++ [o] := by
        simp [applyOrderStep, contains_eq_decide_mem, hmem]
      have hnodup1 : (sel.erase o ++ [o]).Nodup := by
        rw [List.nodup_append]
        refine ⟨hs.erase o, List.nodup_singleton o, ?_⟩
        intro a ha hb
        rw [List.mem_singleton] at hb
        subst hb
        exact (hs.mem_erase_iff.mp ha).1 rfl
      rw [hstep, ih _ hnodup1 hcons.2, List.filter_append]
      have h1 : [o].filter (fun x => decide (x ∉ os)) = [o] := by
        simp [hcons.1]
      have h2 : os.filter (fun x => decide (x ∈ sel.erase o ++ [o]))
          = os.filter (fun x => decide (x ∈ sel)) := by
        refine List.filter_congr ?_
        intro x hx
        have hiff : (x ∈ sel.erase o ++ [o]) ↔ (x ∈ sel) := by
          by_cases hxo : x = o
          · subst hxo; simp [hmem]
          · simp [List.mem_append, List.mem_erase_of_ne hxo, hxo]
        simp [hiff]
      have h3 : (sel.erase o).filter (fun x => decide (x ∉ os))
          = sel.filter (fun x => decide (x ∉ o :: os)) := by
        rw [hs.erase_eq_filter, List.filter_filter]
        refine List.filter_congr ?_
        intro x hx
        by_cases hxo : x = o
        · subst hxo; simp
        · simp [hxo, List.mem_cons]
      rw [h1, h2, h3, List.append_assoc]
      congr 1
      rw [List.filter_cons]
      simp [hmem]
    · have hstep : applyOrderStep sel (.jstr o) = sel := by
        simp [applyOrderStep, contains_eq_decide_mem, hmem]
      rw [hstep, ih _ hs hcons.2]
      congr 1
      · refine List.filter_congr ?_
        intro x hx
        have hxo : x ≠ o := fun h => hmem (h ▸ hx)
        simp [List.mem_cons, hxo]
      · rw [List.filter_cons]
        simp [hmem]

/-! ## C1: partial application of the server-supplied initial order -/

/-- C1 counterexample. The claim predicts that for selected items
`a, b, c` in encounter order and supplied initial order `[c, a]` the
resulting order is `[c, a, b]`. The code's loop runs `appendChild` on each
listed item, which *moves it to the end of the list*, so listed items end
up last, not first: the result is `[b, c, a]`. -/
theorem C1_counterexample :
    (applyInitialOrder ["a", "b", "c"] (.jarr [.jstr "c", .jstr "a"])).toOption
      = some ["b", "c", "a"]
    ∧ (applyInitialOrder ["a", "b", "c"] (.jarr [.jstr "c", .jstr "a"])).toOption
      ≠ some ["c", "a", "b"] := by
  exact ⟨rfl, by decide⟩

/-- C1 amended: `applyInitialOrder` applies a server-supplied initial order
partially, but listed items are *moved to the end* of the selection in the
supplied relative order, while selected items not listed keep their
original encounter order *at the front*; for selected items `a, b, c` and
supplied order `[c, a]` the result is `[b, c, a]`. Stated for
duplicate-free selections (invariant B) and duplicate-free orders. -/
theorem C1_applyInitialOrder_amended (order sel : List String)
    (hs : sel.Nodup) (ho : order.Nodup) :
    applyInitialOrder sel (.jarr (order.map JsVal.jstr))
      = .ok (sel.filter (fun x => decide (x ∉ order))
          ++ order.filter (fun x => decide (x ∈ sel))) := by
  cases order with
  | nil => simp [applyInitialOrder]
  | cons o os =>
    simp only [applyInitialOrder]
    rw [if_neg (by simp)]
    rw [foldl_applyOrderStep_eq (o :: os) sel hs ho]

/-- C1 witness: the amended statement evaluated at the claim's own example. -/
theorem C1_witness :
    applyInitialOrder ["a", "b", "c"] (.jarr (["c", "a"].map JsVal.jstr))
      = .ok ((["a", "b", "c"] : List String).filter
            (fun x => decide (x ∉ (["c", "a"] : List String)))
          ++ (["c", "a"] : List String).filter
            (fun x => decide (x ∈ (["a", "b", "c"] : List String)))) :=
  C1_applyInitialOrder_amended ["c", "a"] ["a", "b", "c"] (by decide) (by decide)

/-! ## C3: malformed initial-order input -/

/-- C3. Unparseable JSON is indeed caught (the `try/catch` returns `[]`,
a no-op), but the claim that JSON parsing to a *non-array* value is also a
safe no-op is wrong: a non-array value such as `{}` passes the `catch`,
`selectedListInitialOrder.length === 0` is `false` (`undefined === 0`),
and `selectedListInitialOrder.forEach` then throws a `TypeError`, so page
initialization does not complete (the clear-button wiring after the
`applyInitialOrder()` call never runs). The `try/catch` shows the intent
is to tolerate malformed input, so this is a code bug (a missing
`Array.isArray` check). -/
theorem C3_initialOrder_code_bug :
    applyInitialOrder ["a.mp4", "b.mp4"] (selectedListInitialOrder (.parses .jobj))
      = .error "TypeError: selectedListInitialOrder.forEach is not a function"
    ∧ (∀ sel : List String,
        applyInitialOrder sel (selectedListInitialOrder .malformed) = .ok sel)
    ∧ (∀ sel : List String,
        applyInitialOrder sel (selectedListInitialOrder .absent) = .ok sel)
    ∧ applyInitialOrder ["a.mp4"] (selectedListInitialOrder (.parses (.jnum 5)))
      = .error "TypeError: selectedListInitialOrder.forEach is not a function"
    ∧ applyInitialOrder ["a.mp4"] (selectedListInitialOrder (.parses .jnull))
      = .error "TypeError: cannot read properties of null (reading length)" := by
  exact ⟨rfl, fun sel => rfl, fun sel => rfl, rfl, rfl⟩

/-- C3 witness: the surviving (unparseable-input) half at a concrete list. -/
theorem C3_witness :
    applyInitialOrder ["x.mp4"] (selectedListInitialOrder .malformed) = .ok ["x.mp4"] :=
  C3_initialOrder_code_bug.2.1 ["x.mp4"]

/-! ## C6: toggle-change semantics of the selection model -/

/-- C6: `syncSelectedEntry` appends on a fresh on-toggle (leaving the
previous order as a prefix), is a no-op when the state already matches,
removes exactly the toggled-off id, is idempotent, and toggling the same
id on twice leaves it present exactly once. -/
theorem C6_onToggleChanged (path : String) (sel : List String) :
    (path ∉ sel → syncSelectedEntry true path sel = sel ++ [path])
    ∧ (path ∈ sel → syncSelectedEntry true path sel = sel)
    ∧ (sel.Nodup → syncSelectedEntry false path sel = sel.filter (fun x => x != path))
    ∧ (path ∉ sel → syncSelectedEntry false path sel = sel)
    ∧ (sel.Nodup → ∀ b, syncSelectedEntry b path (syncSelectedEntry b path sel)
        = syncSelectedEntry b path sel)
    ∧ (sel.Nodup →
        (syncSelectedEntry true path (syncSelectedEntry true path sel)).count path = 1) := by
  refine ⟨?h1, ?h2, ?h3, ?h4, ?h5, ?h6⟩
  case h1 =>
    intro h
    simp [syncSelectedEntry, contains_eq_decide_mem, h]
  case h2 =>
    intro h
    simp [syncSelectedEntry, contains_eq_decide_mem, h]
  case h3 =>
    intro h
    by_cases hm : path ∈ sel
    · have h1 : syncSelectedEntry false path sel = sel.erase path := by
        simp [syncSelectedEntry, contains_eq_decide_mem, hm]
      rw [h1]
      exact h.erase_eq_filter path
    · have h1 : syncSelectedEntry false path sel = sel := by
        simp [syncSelectedEntry, contains_eq_decide_mem, hm]
      rw [h1]
      refine (List.filter_eq_self.mpr ?_).symm
      intro a ha
      have hne : a ≠ path := fun hh => hm (hh ▸ ha)
      simpa using hne
  case h4 =>
    intro h
    simp [syncSelectedEntry, contains_eq_decide_mem, h]
  case h5 =>
    intro hnd b
    cases b with
    | true =>
      by_cases hm : path ∈ sel
      · simp [syncSelectedEntry, contains_eq_decide_mem, hm]
      · simp [syncSelectedEntry, contains_eq_decide_mem, hm]
    | false =>
      by_cases hm : path ∈ sel
      · have herase : path ∉ sel.erase path := fun hc =>
          (hnd.mem_erase_iff.mp hc).1 rfl
        simp [syncSelectedEntry, contains_eq_decide_mem, hm, herase]
      · simp [syncSelectedEntry, contains_eq_decide_mem, hm]
  case h6 =>
    intro h
    by_cases hm : path ∈ sel
    · have hsync : syncSelectedEntry true path sel = sel := by
        simp [syncSelectedEntry, contains_eq_decide_mem, hm]
      rw [hsync, hsync]
      exact List.count_eq_one_of_mem h hm
    · have hsync : syncSelectedEntry true path sel = sel ++ [path] := by
        simp [syncSelectedEntry, contains_eq_decide_mem, hm]
      have hmem2 : path ∈ sel ++ [path] := by simp
      rw [hsync]
      have hsync2 : syncSelectedEntry true path (sel ++ [path]) = sel ++ [path] := by
        simp [syncSelectedEntry, contains_eq_decide_mem, hmem2]
      rw [hsync2, List.count_append, List.count_eq_zero_of_not_mem hm,
        List.count_singleton_self]

/-- C6 witness. -/
theorem C6_witness : syncSelectedEntry true "b" ["a"] = ["a", "b"] :=
  (C6_onToggleChanged "b" ["a"]).1 (by decide)

/-! ## C7: adjacent moves -/

theorem prevSiblingAux_decomp (xs : List String) :
    ∀ (prev : Option String) (p id : String) (ys : List String),
      id ∉ xs → id ≠ p →
      prevSiblingAux prev (xs ++ p :: id :: ys) id = some p := by
  induction xs with
  | nil =>
    intro prev p id ys _ hne
    simp [prevSiblingAux, Ne.symm hne]
  | cons x xs ih =>
    intro prev p id ys hid hne
    rw [List.mem_cons, not_or] at hid
    simp only [List.cons_append, prevSiblingAux]
    rw [if_neg (Ne.symm hid.1)]
    exact ih (some x) p id ys hid.2 hne

theorem prevSibling_decomp (xs : List String) (p id : String) (ys : List String)
    (hid : id ∉ xs) (hne : id ≠ p) :
    prevSibling (xs ++ p :: id :: ys) id = some p :=
  prevSiblingAux_decomp xs none p id ys hid hne

theorem prevSibling_head (id : String) (ys : List String) :
    prevSibling (id :: ys) id = none := by
  simp [prevSibling, prevSiblingAux]

theorem nextSibling_decomp (xs : List String) :
    ∀ (id : String) (rest : List String), id ∉ xs →
      nextSibling (xs ++ id :: rest) id = rest.head? := by
  induction xs with
  | nil => intro id rest _; simp [nextSibling]
  | cons x xs ih =>
    intro id rest hid
    rw [List.mem_cons, not_or] at hid
    simp only [List.cons_append, nextSibling]
    rw [if_neg (Ne.symm hid.1)]
    exact ih id rest hid.2

theorem insertBeforeRef_decomp (xs : List String) :
    ∀ (ref node : String) (ys : List String), ref ∉ xs →
      insertBeforeRef (xs ++ ref :: ys) ref node = xs ++ node :: ref :: ys := by
  induction xs with
  | nil => intro ref node ys _; simp [insertBeforeRef]
  | cons x xs ih =>
    intro ref node ys href
    rw [List.mem_cons, not_or] at href
    simp only [List.cons_append, insertBeforeRef]
    rw [if_neg (Ne.symm href.1)]
    show x :: insertBeforeRef (xs ++ ref :: ys) ref node = x :: (xs ++ node :: ref :: ys)
    rw [ih ref node ys href.2]

theorem erase_decomp (xs : List String) (p id : String) (ys : List String)
    (hid : id ∉ xs) (hne : p ≠ id) :
    (xs ++ p :: id :: ys).erase id = xs ++ p :: ys := by
  rw [List.erase_append_right _ hid]
  have hbeq : ¬ ((p == id) = true) := by simpa using hne
  rw [List.erase_cons_tail hbeq, List.erase_cons_head]

/-- C7: `moveSelectedItem` swaps the item with its immediate predecessor
(direction `-1`) or successor (direction `+1`), leaving every other item in
place (explicit in the swapped decomposition), and a move of the first item
up or the last item down is a no-op that also leaves the whole page state
(hidden serialized inputs included) untouched, since the function returns
before `refreshOrderedInputs`. -/
theorem C7_moveAdjacent :
    (∀ (xs : List String) (p id : String) (ys : List String),
        (xs ++ p :: id :: ys).Nodup →
        moveSelectedItem (xs ++ p :: id :: ys) id (-1) = xs ++ id :: p :: ys)
    ∧ (∀ (xs : List String) (id n : String) (ys : List String),
        (xs ++ id :: n :: ys).Nodup →
        moveSelectedItem (xs ++ id :: n :: ys) id 1 = xs ++ n :: id :: ys)
    ∧ (∀ (id : String) (ys : List String),
        moveSelectedItem (id :: ys) id (-1) = id :: ys)
    ∧ (∀ (xs : List String) (id : String), id ∉ xs →
        moveSelectedItem (xs ++ [id]) id 1 = xs ++ [id])
    ∧ (∀ (st : UiState) (id : String), prevSibling st.selection id = none →
        moveOp st id (-1) = st)
    ∧ (∀ (st : UiState) (id : String), nextSibling st.selection id = none →
        moveOp st id 1 = st) := by
  refine ⟨?up, ?down, ?upFirst, ?downLast, ?upBoundary, ?downBoundary⟩
  case up =>
    intro xs p id ys h
    rw [List.nodup_append] at h
    obtain ⟨h1, h2, hdisj⟩ := h
    have hidxs : id ∉ xs := fun hmem => hdisj hmem (by simp)
    have hpxs : p ∉ xs := fun hmem => hdisj hmem (by simp)
    have hpid : p ≠ id := by
      have hc := List.nodup_cons.mp h2
      exact fun hh => hc.1 (by simp [hh])
    unfold moveSelectedItem
    rw [if_pos (by norm_num)]
    rw [prevSibling_decomp xs p id ys hidxs (Ne.symm hpid)]
    rw [erase_decomp xs p id ys hidxs hpid]
    exact insertBeforeRef_decomp xs p id ys hpxs
  case down =>
    intro xs id n ys h
    rw [List.nodup_append] at h
    obtain ⟨h1, h2, hdisj⟩ := h
    have hc := List.nodup_cons.mp h2
    have hc2 := List.nodup_cons.mp hc.2
    have hidn : id ≠ n := fun hh => hc.1 (by simp [hh])
    have hidxs : id ∉ xs := fun hmem => hdisj hmem (by simp)
    have hnxs : n ∉ xs := fun hmem => hdisj hmem (by simp)
    unfold moveSelectedItem
    rw [if_neg (by norm_num), if_pos (by norm_num)]
    rw [nextSibling_decomp xs id (n :: ys) hidxs]
    have hnxs2 : n ∉ xs ++ [id] := by
      simp only [List.mem_append, List.mem_singleton]
      exact fun hh => hh.elim hnxs (fun hh2 => hidn hh2.symm)
    have hnext : nextSibling (xs ++ id :: n :: ys) n = ys.head? := by
      have hsel : xs ++ id :: n :: ys = (xs ++ [id]) ++ n :: ys := by simp
      rw [hsel]
      exact nextSibling_decomp (xs ++ [id]) n ys hnxs2
    rw [List.head?_cons]
    dsimp only
    rw [hnext]
    cases ys with
    | nil =>
      rw [List.head?_nil]
      rw [List.erase_append_right _ hidxs, List.erase_cons_head]
      simp
    | cons nn ys2 =>
      rw [List.head?_cons]
      dsimp only
      rw [List.erase_append_right _ hidxs, List.erase_cons_head]
      have hnnxs : nn ∉ xs ++ [n] := by
        have hnn1 : nn ∉ xs := fun hmem => hdisj hmem (by simp)
        have hnn2 : nn ≠ n := fun hh => hc2.1 (by simp [hh])
        simp only [List.mem_append, List.mem_singleton]
        exact fun hh => hh.elim hnn1 hnn2
      have hsplit : xs ++ n :: nn :: ys2 = (xs ++ [n]) ++ nn :: ys2 := by simp
      rw [hsplit, insertBeforeRef_decomp (xs ++ [n]) nn id ys2 hnnxs]
      simp
  case upFirst =>
    intro id ys
    unfold moveSelectedItem
    rw [if_pos (by norm_num), prevSibling_head]
  case downLast =>
    intro xs id hid
    unfold moveSelectedItem
    rw [if_neg (by norm_num), if_pos (by norm_num)]
    have hnone : nextSibling (xs ++ [id]) id = none := by
      rw [nextSibling_decomp xs id [] hid, List.head?_nil]
    rw [hnone]
  case upBoundary =>
    intro st id h
    unfold moveOp
    rw [if_pos (by norm_num), h]
  case downBoundary =>
    intro st id h
    unfold moveOp
    rw [if_neg (by norm_num), if_pos (by norm_num), h]

/-- C7 witness: swapping the middle item down past its successor. -/
theorem C7_witness : moveSelectedItem ["a", "b", "c"] "b" 1 = ["a", "c", "b"] :=
  C7_moveAdjacent.2.1 ["a"] "b" "c" [] (by decide)

/-! ## C5: the order serializer tracks every mutation -/

/-- The serializer contract: the hidden inputs are exactly one
`ordered_videos` field per selected item, in selection order; and every
selected path is non-empty (so the serializer's empty-path skip drops
nothing). -/
def OrderedInputsInv (st : UiState) : Prop :=
  st.hidden = st.selection.map (fun p => ("ordered_videos", p))
  ∧ ∀ p ∈ st.selection, p ≠ ""

theorem refreshOrderedInputs_eq_map (sel : List String) (h : ∀ p ∈ sel, p ≠ "") :
    refreshOrderedInputs sel = sel.map (fun p => ("ordered_videos", p)) := by
  unfold refreshOrderedInputs
  rw [List.filter_eq_self.mpr]
  intro a ha
  simpa using h a ha

theorem syncSelectedEntry_mem (b : Bool) (path x : String) (sel : List String)
    (h : x ∈ syncSelectedEntry b path sel) : x ∈ sel ∨ x = path := by
  unfold syncSelectedEntry at h
  cases b with
  | true =>
    by_cases hc : sel.contains path
    · rw [if_pos rfl, if_pos hc] at h
      exact Or.inl h
    · rw [if_pos rfl, if_neg hc] at h
      rcases List.mem_append.mp h with h1 | h2
      · exact Or.inl h1
      · exact Or.inr (List.mem_singleton.mp h2)
  | false =>
    by_cases hc : sel.contains path
    · rw [if_neg (by simp), if_pos hc] at h
      exact Or.inl (List.mem_of_mem_erase h)
    · rw [if_neg (by simp), if_neg hc] at h
      exact Or.inl h

theorem insertBeforeRef_mem (l : List String) :
    ∀ (ref node x : String), x ∈ insertBeforeRef l ref node → x ∈ l ∨ x = node := by
  induction l with
  | nil =>
    intro ref node x h
    rw [insertBeforeRef] at h
    exact Or.inr (List.mem_singleton.mp h)
  | cons y ys ih =>
    intro ref node x h
    rw [insertBeforeRef] at h
    by_cases hy : y = ref
    · rw [if_pos hy] at h
      rcases List.mem_cons.mp h with h1 | h2
      · exact Or.inr h1
      · exact Or.inl h2
    · rw [if_neg hy] at h
      rcases List.mem_cons.mp h with h1 | h2
      · exact Or.inl (h1 ▸ List.mem_cons_self y ys)
      · rcases ih ref node x h2 with h3 | h4
        · exact Or.inl (List.mem_cons_of_mem y h3)
        · exact Or.inr h4

theorem prevSiblingAux_some_mem (l : List String) :
    ∀ (prev : Option String) (id p : String),
      prevSiblingAux prev l id = some p → id ∈ l := by
  induction l with
  | nil => intro prev id p h; exact absurd h (by simp [prevSiblingAux])
  | cons x xs ih =>
    intro prev id p h
    rw [prevSiblingAux] at h
    by_cases hx : x = id
    · exact hx ▸ List.mem_cons_self x xs
    · rw [if_neg hx] at h
      exact List.mem_cons_of_mem x (ih (some x) id p h)

theorem prevSibling_some_mem (l : List String) (id p : String)
    (h : prevSibling l id = some p) : id ∈ l :=
  prevSiblingAux_some_mem l none id p h

theorem nextSibling_some_mem (l : List String) :
    ∀ (id n : String), nextSibling l id = some n → id ∈ l := by
  induction l with
  | nil => intro id n h; exact absurd h (by simp [nextSibling])
  | cons x xs ih =>
    intro id n h
    rw [nextSibling] at h
    by_cases hx : x = id
    · exact hx ▸ List.mem_cons_self x xs
    · rw [if_neg hx] at h
      exact List.mem_cons_of_mem x (ih id n h)

theorem syncWith_inv (b : Bool) (p : String) (st : UiState)
    (h : OrderedInputsInv st) : OrderedInputsInv (syncWith b p st) := by
  unfold syncWith
  by_cases hp : p = ""
  · rw [if_pos hp]; exact h
  · rw [if_neg hp]
    have hne : ∀ q ∈ syncSelectedEntry b p st.selection, q ≠ "" := by
      intro q hq
      rcases syncSelectedEntry_mem b p q st.selection hq with h1 | h2
      · exact h.2 q h1
      · exact h2 ▸ hp
    exact ⟨refreshOrderedInputs_eq_map _ hne, hne⟩

theorem updateResults_core_eq (E : List String) (st : UiState) :
    (updateResults E st).selection = st.selection
    ∧ (updateResults E st).hidden = st.hidden
    ∧ (updateResults E st).checked = st.checked
    ∧ (updateResults E st).searchValue = st.searchValue
    ∧ (updateResults E st).wired = st.wired := by
  unfold updateResults clearResults
  dsimp only
  split
  · exact ⟨rfl, rfl, rfl, rfl, rfl⟩
  · split
    · exact ⟨rfl, rfl, rfl, rfl, rfl⟩
    · exact ⟨rfl, rfl, rfl, rfl, rfl⟩

theorem changeListener_inv (E : List String) (st : UiState) (p : String)
    (h : OrderedInputsInv st) : OrderedInputsInv (changeListener E st p) := by
  unfold changeListener
  dsimp only
  split
  · exact syncWith_inv _ _ _ h
  · have h1 := syncWith_inv (st.checked p) p st h
    have h2 := updateResults_core_eq E (syncWith (st.checked p) p st)
    constructor
    · rw [h2.2.1, h2.1]
      exact h1.1
    · intro q hq
      rw [h2.1] at hq
      exact h1.2 q hq

theorem stepEv_inv (E : List String) (st : UiState) (ev : ToggleEv)
    (h : OrderedInputsInv st) : OrderedInputsInv (stepEv E st ev) := by
  cases ev with
  | nativeEv p b => exact changeListener_inv E _ p h
  | mirrorEv p b => exact changeListener_inv E _ p h
  | removeEv p => exact changeListener_inv E _ p h

theorem moveTarget_inv (st : UiState) (sel' : List String)
    (hsub : ∀ q ∈ sel', q ∈ st.selection) (h : OrderedInputsInv st) :
    OrderedInputsInv { st with selection := sel', hidden := refreshOrderedInputs sel' } := by
  have hne : ∀ q ∈ sel', q ≠ "" := fun q hq => h.2 q (hsub q hq)
  exact ⟨refreshOrderedInputs_eq_map sel' hne, hne⟩

theorem moveOp_inv (st : UiState) (id : String) (dir : Int)
    (h : OrderedInputsInv st) : OrderedInputsInv (moveOp st id dir) := by
  unfold moveOp
  by_cases h1 : dir < 0
  · rw [if_pos h1]
    cases hprev : prevSibling st.selection id with
    | none => exact h
    | some p =>
      refine moveTarget_inv st _ ?_ h
      intro q hq
      rcases insertBeforeRef_mem _ _ _ _ hq with h2 | h3
      · exact List.mem_of_mem_erase h2
      · exact h3 ▸ prevSibling_some_mem _ _ _ hprev
  · rw [if_neg h1]
    by_cases h2 : dir > 0
    · rw [if_pos h2]
      cases hnext : nextSibling st.selection id with
      | none => exact h
      | some n =>
        dsimp only
        have hid : id ∈ st.selection := nextSibling_some_mem _ _ _ hnext
        cases hnext2 : nextSibling st.selection n with
        | none =>
          refine moveTarget_inv st _ ?_ h
          intro q hq
          rcases List.mem_append.mp hq with h3 | h4
          · exact List.mem_of_mem_erase h3
          · exact (List.mem_singleton.mp h4) ▸ hid
        | some nn =>
          refine moveTarget_inv st _ ?_ h
          intro q hq
          rcases insertBeforeRef_mem _ _ _ _ hq with h3 | h4
          · exact List.mem_of_mem_erase h3
          · exact h4 ▸ hid
    · rw [if_neg h2]
      exact ⟨refreshOrderedInputs_eq_map _ h.2, h.2⟩

theorem applyInitialOrder_ok_mem (sel : List String) (v : JsVal) (sel' : List String)
    (h : applyInitialOrder sel v = .ok sel') : ∀ x, x ∈ sel' ↔ x ∈ sel := by
  cases v with
  | jarr elems =>
    simp only [applyInitialOrder, Except.ok.injEq] at h
    intro x
    rw [← h]
    split
    · exact Iff.rfl
    · exact foldl_applyOrderStep_mem elems sel x
  | jstr s =>
    simp only [applyInitialOrder] at h
    split at h
    · simp only [Except.ok.injEq] at h
      intro x
      rw [← h]
    · exact Except.noConfusion h
  | jnull => exact Except.noConfusion h
  | jbool b => exact Except.noConfusion h
  | jnum n => exact Except.noConfusion h
  | jobj => exact Except.noConfusion h

theorem applyInitialOrder_ok_nodup (sel : List String) (v : JsVal) (sel' : List String)
    (h : applyInitialOrder sel v = .ok sel') (hnd : sel.Nodup) : sel'.Nodup := by
  cases v with
  | jarr elems =>
    simp only [applyInitialOrder, Except.ok.injEq] at h
    rw [← h]
    split
    · exact hnd
    · exact foldl_applyOrderStep_nodup elems sel hnd
  | jstr s =>
    simp only [applyInitialOrder] at h
    split at h
    · simp only [Except.ok.injEq] at h
      rw [← h]
      exact hnd
    · exact Except.noConfusion h
  | jnull => exact Except.noConfusion h
  | jbool b => exact Except.noConfusion h
  | jnum n => exact Except.noConfusion h
  | jobj => exact Except.noConfusion h

theorem applyInitialOrderOp_inv (st : UiState) (v : JsVal) (st' : UiState)
    (hok : applyInitialOrderOp st v = .ok st') (h : OrderedInputsInv st) :
    OrderedInputsInv st' := by
  unfold applyInitialOrderOp at hok
  cases happ : applyInitialOrder st.selection v with
  | error e => rw [happ] at hok; exact Except.noConfusion hok
  | ok sel' =>
    rw [happ] at hok
    simp only [Except.ok.injEq] at hok
    rw [← hok]
    have hsub : ∀ q ∈ sel', q ∈ st.selection :=
      fun q hq => (applyInitialOrder_ok_mem st.selection v sel' happ q).mp hq
    exact moveTarget_inv st sel' hsub h

theorem syncFold_inv (entries : List (String × Bool)) :
    ∀ st : UiState, OrderedInputsInv st →
      OrderedInputsInv (entries.foldl (fun s e => syncWith e.2 e.1 s) st) := by
  induction entries with
  | nil => intro st h; exact h
  | cons e es ih =>
    intro st h
    rw [List.foldl_cons]
    exact ih _ (syncWith_inv e.2 e.1 st h)

theorem initPage_inv5 (cfg : PageConfig) (st0 : UiState)
    (h : initPage cfg = .ok st0) : OrderedInputsInv st0 := by
  unfold initPage at h
  by_cases hs : cfg.searchPresent = false
  · rw [if_pos hs] at h
    simp only [Except.ok.injEq] at h
    rw [← h]
    exact ⟨rfl, fun p hp => absurd hp (List.not_mem_nil p)⟩
  · rw [if_neg hs] at h
    refine applyInitialOrderOp_inv _ _ _ h ?_
    exact syncFold_inv cfg.entries _ ⟨rfl, fun p hp => absurd hp (List.not_mem_nil p)⟩

/-- C5: after page initialization and after every selection-model mutation
(toggle-change from any surface, adjacent move, initial-order application)
the hidden submission fields are rebuilt synchronously and equal exactly
one `ordered_videos` input per selected item in the selection's own order —
no extra and no missing entries. The boundary cases of `moveOp` return
before the rebuild, but they mutate nothing, so the correspondence is
preserved there too. -/
theorem C5_orderSerializer :
    (∀ (entries : List String) (st : UiState) (ev : ToggleEv),
        OrderedInputsInv st → OrderedInputsInv (stepEv entries st ev))
    ∧ (∀ (st : UiState) (id : String) (dir : Int),
        OrderedInputsInv st → OrderedInputsInv (moveOp st id dir))
    ∧ (∀ (st : UiState) (v : JsVal) (st' : UiState),
        OrderedInputsInv st → applyInitialOrderOp st v = .ok st' → OrderedInputsInv st')
    ∧ (∀ (cfg : PageConfig) (st0 : UiState),
        initPage cfg = .ok st0 → OrderedInputsInv st0) :=
  ⟨fun entries st ev h => stepEv_inv entries st ev h,
   fun st id dir h => moveOp_inv st id dir h,
   fun st v st' h hok => applyInitialOrderOp_inv st v st' hok h,
   fun cfg st0 h => initPage_inv5 cfg st0 h⟩

/-- C5 witness. -/
def c5State : UiState :=
  { checked := fun _ => false
    mirrorChecked := fun _ => false
    selection := ["v1.mp4"]
    hidden := [("ordered_videos", "v1.mp4")]
    searchValue := ""
    results := []
    wrapperHidden := true
    listHidden := false
    noResultsHidden := true
    wired := true }

theorem C5_witness : OrderedInputsInv (stepEv [] c5State (.nativeEv "v2.mp4" true)) :=
  C5_orderSerializer.1 [] c5State (.nativeEv "v2.mp4" true) ⟨rfl, by decide⟩

/-! ## C9: search filtering and the two empty states -/

theorem listIncludes_iff (pat : List Char) :
    ∀ l : List Char, listIncludes pat l = true ↔ pat <:+: l := by
  intro l
  induction l with
  | nil =>
    rw [listIncludes, List.infix_nil]
    exact List.isEmpty_iff
  | cons c rest ih =>
    rw [listIncludes, Bool.or_eq_true, List.infix_cons_iff]
    constructor
    · rintro (h | h)
      · exact Or.inl (List.isPrefixOf_iff_prefix.mp h)
      · exact Or.inr (ih.mp h)
    · rintro (h | h)
      · exact Or.inl (List.isPrefixOf_iff_prefix.mpr h)
      · exact Or.inr (ih.mpr h)

theorem strIncludes_iff (hay pat : String) :
    strIncludes hay pat = true ↔ pat.data <:+: hay.data :=
  listIncludes_iff pat.data hay.data

theorem jsToLowerCase_eq_empty_iff (s : String) : jsToLowerCase s = "" ↔ s = "" := by
  constructor
  · intro h
    have hd : (jsToLowerCase s).data = ("" : String).data := congrArg String.data h
    unfold jsToLowerCase at hd
    have hnil : s.data = [] := List.map_eq_nil_iff.mp hd
    exact String.ext hnil
  · rintro rfl
    rfl

theorem updateResults_noQuery (E : List String) (st : UiState)
    (h : jsTrim st.searchValue = "") : updateResults E st = clearResults st := by
  unfold updateResults
  dsimp only
  rw [if_pos ((jsToLowerCase_eq_empty_iff _).mpr h)]

theorem updateResults_noMatches (E : List String) (st : UiState)
    (h : jsTrim st.searchValue ≠ "")
    (hf : E.filter
        (fun p => strIncludes (jsToLowerCase p) (jsToLowerCase (jsTrim st.searchValue))) = []) :
    updateResults E st
      = { st with
          results := []
          mirrorChecked := fun _ => false
          wrapperHidden := false
          listHidden := true
          noResultsHidden := false } := by
  unfold updateResults
  dsimp only
  rw [if_neg (fun hc => h ((jsToLowerCase_eq_empty_iff _).mp hc)), if_pos hf]

theorem updateResults_matches (E : List String) (st : UiState)
    (h : jsTrim st.searchValue ≠ "")
    (hf : E.filter
        (fun p => strIncludes (jsToLowerCase p) (jsToLowerCase (jsTrim st.searchValue))) ≠ []) :
    updateResults E st
      = { st with
          results := E.filter
            (fun p => strIncludes (jsToLowerCase p) (jsToLowerCase (jsTrim st.searchValue)))
          mirrorChecked := st.checked
          wrapperHidden := false
          listHidden := false
          noResultsHidden := true } := by
  unfold updateResults
  dsimp only
  rw [if_neg (fun hc => h ((jsToLowerCase_eq_empty_iff _).mp hc)), if_neg hf]

/-- C9: an empty or whitespace-only query clears the results (wrapper
hidden — the not-searching state); a non-empty query with zero matches
shows the wrapper with the no-results alert and the list hidden (a state
distinct from not searching: the wrapper's visibility differs); a
non-empty query with matches shows exactly the entries whose lowercased id
contains the lowercased trimmed query as a contiguous substring. -/
theorem C9_searchFilter :
    (∀ (E : List String) (st : UiState), jsTrim st.searchValue = "" →
        updateResults E st = clearResults st)
    ∧ (∀ st : UiState, (clearResults st).wrapperHidden = true
        ∧ (clearResults st).results = [] ∧ (clearResults st).noResultsHidden = true)
    ∧ (∀ (E : List String) (st : UiState), jsTrim st.searchValue ≠ "" →
        E.filter
          (fun p => strIncludes (jsToLowerCase p) (jsToLowerCase (jsTrim st.searchValue))) = [] →
        (updateResults E st).wrapperHidden = false
        ∧ (updateResults E st).listHidden = true
        ∧ (updateResults E st).noResultsHidden = false
        ∧ (updateResults E st).results = [])
    ∧ (∀ (E : List String) (st : UiState), jsTrim st.searchValue ≠ "" →
        E.filter
          (fun p => strIncludes (jsToLowerCase p) (jsToLowerCase (jsTrim st.searchValue))) ≠ [] →
        (updateResults E st).wrapperHidden = false
        ∧ (updateResults E st).listHidden = false
        ∧ (updateResults E st).noResultsHidden = true
        ∧ (updateResults E st).results
            = E.filter
              (fun p => strIncludes (jsToLowerCase p) (jsToLowerCase (jsTrim st.searchValue))))
    ∧ (∀ (E : List String) (st : UiState) (p : String),
        p ∈ (updateResults E st).results ↔
          (jsTrim st.searchValue ≠ "" ∧ p ∈ E
            ∧ (jsToLowerCase (jsTrim st.searchValue)).data <:+: (jsToLowerCase p).data)) := by
  refine ⟨?q1, ?q2, ?q3, ?q4, ?q5⟩
  case q1 =>
    intro E st h
    exact updateResults_noQuery E st h
  case q2 =>
    intro st
    exact ⟨rfl, rfl, rfl⟩
  case q3 =>
    intro E st h hf
    rw [updateResults_noMatches E st h hf]
    exact ⟨rfl, rfl, rfl, rfl⟩
  case q4 =>
    intro E st h hf
    rw [updateResults_matches E st h hf]
    exact ⟨rfl, rfl, rfl, rfl⟩
  case q5 =>
    intro E st p
    by_cases h1 : jsTrim st.searchValue = ""
    · rw [updateResults_noQuery E st h1]
      simp [clearResults, h1]
    · by_cases h2 : E.filter
          (fun p => strIncludes (jsToLowerCase p) (jsToLowerCase (jsTrim st.searchValue))) = []
      · rw [updateResults_noMatches E st h1 h2]
        dsimp only
        constructor
        · intro hp
          exact absurd hp (List.not_mem_nil p)
        · rintro ⟨-, hpE, hinf⟩
          have hmem : p ∈ E.filter
              (fun p => strIncludes (jsToLowerCase p) (jsToLowerCase (jsTrim st.searchValue))) := by
            rw [List.mem_filter]
            exact ⟨hpE, (strIncludes_iff _ _).mpr hinf⟩
          rw [h2] at hmem
          exact absurd hmem (List.not_mem_nil p)
      · rw [updateResults_matches E st h1 h2]
        dsimp only
        rw [List.mem_filter]
        constructor
        · rintro ⟨hpE, hs⟩
          exact ⟨h1, hpE, (strIncludes_iff _ _).mp hs⟩
        · rintro ⟨-, hpE, hinf⟩
          exact ⟨hpE, (strIncludes_iff _ _).mpr hinf⟩

/-- C9 witness: a whitespace-only query collapses the results panel. -/
def c9State : UiState :=
  { checked := fun _ => false
    mirrorChecked := fun _ => false
    selection := []
    hidden := []
    searchValue := "   "
    results := []
    wrapperHidden := true
    listHidden := false
    noResultsHidden := true
    wired := true }

theorem C9_witness : updateResults ["a.mp4"] c9State = clearResults c9State :=
  C9_searchFilter.1 ["a.mp4"] c9State (by rfl)

/-! ## C10: closing the preview never clears the highlight -/

/-- C10: `closePreview` stops playback, drops the media source and hides
the modal, but touches neither the `preview-active` class set nor
`activePreviewEntry`; reopening a preview for the *same* entry keeps its
highlight and every other row's class unchanged; only opening a preview
for a *different* catalog entry clears the previous highlight (and sets
the new one). -/
theorem C10_previewHighlightFrame :
    (∀ st : PreviewState,
        (closePreview st).highlighted = st.highlighted
        ∧ (closePreview st).active = st.active)
    ∧ (∀ st : PreviewState, st.modalPresent = true →
        (closePreview st).modalOpen = false ∧ (closePreview st).playing = false
        ∧ (closePreview st).videoSrc = none)
    ∧ (∀ (cat : List String) (st : PreviewState) (src path : String),
        st.modalPresent = true → src ≠ "" → path ≠ "" → cat.contains path = true →
        st.active = some path →
        (openPreview cat st src path).highlighted path = true
        ∧ (∀ x, x ≠ path →
            (openPreview cat st src path).highlighted x = st.highlighted x)
        ∧ (openPreview cat st src path).active = some path)
    ∧ (∀ (cat : List String) (st : PreviewState) (src path p0 : String),
        st.modalPresent = true → src ≠ "" → path ≠ "" → cat.contains path = true →
        st.active = some p0 → p0 ≠ path →
        (openPreview cat st src path).highlighted p0 = false
        ∧ (openPreview cat st src path).highlighted path = true
        ∧ (openPreview cat st src path).active = some path) := by
  refine ⟨?close1, ?close2, ?sameOpen, ?otherOpen⟩
  case close1 =>
    intro st
    unfold closePreview
    split
    · exact ⟨rfl, rfl⟩
    · exact ⟨rfl, rfl⟩
  case close2 =>
    intro st h
    unfold closePreview
    rw [if_neg (by simp [h])]
    exact ⟨rfl, rfl, rfl⟩
  case sameOpen =>
    intro cat st src path hm hsrc hp hcat hact
    have hmem : path ∈ cat := by
      have hc2 := hcat
      rw [contains_eq_decide_mem] at hc2
      exact of_decide_eq_true hc2
    refine ⟨?_, ?_, ?_⟩
    · simp [openPreview, highlightPreviewEntry, hm, hsrc, hp, hcat, hmem, hact]
    · intro x hx
      simp [openPreview, highlightPreviewEntry, hm, hsrc, hp, hcat, hmem, hact, hx]
    · simp [openPreview, highlightPreviewEntry, hm, hsrc, hp, hcat, hmem, hact]
  case otherOpen =>
    intro cat st src path p0 hm hsrc hp hcat hact hne
    have hne2 : ¬ (p0 = path) := hne
    have hmem : path ∈ cat := by
      have hc2 := hcat
      rw [contains_eq_decide_mem] at hc2
      exact of_decide_eq_true hc2
    refine ⟨?_, ?_, ?_⟩
    · simp [openPreview, highlightPreviewEntry, hm, hsrc, hp, hcat, hmem, hact, hne2]
    · simp [openPreview, highlightPreviewEntry, hm, hsrc, hp, hcat, hmem, hact, hne2]
    · simp [openPreview, highlightPreviewEntry, hm, hsrc, hp, hcat, hmem, hact, hne2]

/-- C10 witness: closing after previewing `a.mp4` keeps its highlight,
and previewing `b.mp4` afterwards clears it. -/
def c10State : PreviewState :=
  { modalPresent := true
    modalOpen := true
    videoSrc := some "/media/a.mp4"
    playing := true
    bodyScrollLocked := true
    highlighted := fun x => x == "a.mp4"
    active := some "a.mp4" }

theorem C10_witness :
    (closePreview c10State).highlighted = c10State.highlighted
    ∧ (closePreview c10State).active = c10State.active :=
  C10_previewHighlightFrame.1 c10State

/-! ## C8: all mutation paths funnel through the one change listener -/

/-- `updateResults` rebuilds every mirror proxy from the native checkbox
states, so the mirror states it starts from are irrelevant. -/
theorem updateResults_mirror_irrel (E : List String) (st : UiState) (m : String → Bool) :
    updateResults E { st with mirrorChecked := m } = updateResults E st := rfl

/-- `updateResults` applied to two states that agree on everything except
the mirror-proxy states gives the same result. -/
theorem updateResults_mirror_irrel2 (E : List String) (u v : UiState)
    (h1 : u.checked = v.checked) (h2 : u.selection = v.selection)
    (h3 : u.hidden = v.hidden) (h4 : u.searchValue = v.searchValue)
    (h5 : u.results = v.results) (h6 : u.wrapperHidden = v.wrapperHidden)
    (h7 : u.listHidden = v.listHidden) (h8 : u.noResultsHidden = v.noResultsHidden)
    (h9 : u.wired = v.wired) :
    updateResults E u = updateResults E v := by
  have huv : u = { v with mirrorChecked := u.mirrorChecked } := by
    cases u
    cases v
    dsimp only at h1 h2 h3 h4 h5 h6 h7 h8 h9
    subst h1
    subst h2
    subst h3
    subst h4
    subst h5
    subst h6
    subst h7
    subst h8
    subst h9
    rfl
  rw [huv]
  exact updateResults_mirror_irrel E v _

theorem mirrorToggle_eq_nativeToggle (E : List String) (st : UiState) (p : String)
    (b : Bool) (hq : jsTrim st.searchValue ≠ "") :
    mirrorToggle E st p b = nativeToggle E st p b := by
  unfold mirrorToggle nativeToggle changeListener syncWith
  dsimp only
  by_cases hp : p = ""
  · simp only [if_pos hp]
    rw [if_neg hq, if_neg hq]
    exact updateResults_mirror_irrel2 E _ _ rfl rfl rfl rfl rfl rfl rfl rfl rfl
  · simp only [if_neg hp]
    rw [if_neg hq, if_neg hq]
    exact updateResults_mirror_irrel2 E _ _ rfl rfl rfl rfl rfl rfl rfl rfl rfl

theorem mirrorToggle_core_eq (E : List String) (st : UiState) (p : String) (b : Bool) :
    (mirrorToggle E st p b).selection = (nativeToggle E st p b).selection
    ∧ (mirrorToggle E st p b).hidden = (nativeToggle E st p b).hidden
    ∧ (mirrorToggle E st p b).checked = (nativeToggle E st p b).checked
    ∧ (mirrorToggle E st p b).results = (nativeToggle E st p b).results := by
  by_cases hq : jsTrim st.searchValue = ""
  · unfold mirrorToggle nativeToggle changeListener syncWith
    dsimp only
    by_cases hp : p = ""
    · simp only [if_pos hp]
      rw [if_pos hq, if_pos hq]
      exact ⟨rfl, rfl, rfl, rfl⟩
    · simp only [if_neg hp]
      rw [if_pos hq, if_pos hq]
      exact ⟨rfl, rfl, rfl, rfl⟩
  · rw [mirrorToggle_eq_nativeToggle E st p b hq]
    exact ⟨rfl, rfl, rfl, rfl⟩

/-- C8: a change on a search-mirror proxy copies its state onto the native
checkbox and dispatches a synthetic `change`, so it runs exactly the same
listener as a direct native toggle: while a search is active (the only
time a proxy exists) the resulting page states are identical; the
selection, hidden inputs, checkbox states and rendered results agree even
without that hypothesis; and the remove button is literally the native
path with the checkbox forced off. -/
theorem C8_mirrorRemoveEquivalence :
    (∀ (E : List String) (st : UiState) (p : String) (b : Bool),
        jsTrim st.searchValue ≠ "" →
        mirrorToggle E st p b = nativeToggle E st p b)
    ∧ (∀ (E : List String) (st : UiState) (p : String) (b : Bool),
        (mirrorToggle E st p b).selection = (nativeToggle E st p b).selection
        ∧ (mirrorToggle E st p b).hidden = (nativeToggle E st p b).hidden
        ∧ (mirrorToggle E st p b).checked = (nativeToggle E st p b).checked
        ∧ (mirrorToggle E st p b).results = (nativeToggle E st p b).results)
    ∧ (∀ (E : List String) (st : UiState) (p : String),
        removeClick E st p = nativeToggle E st p false) :=
  ⟨fun E st p b hq => mirrorToggle_eq_nativeToggle E st p b hq,
   fun E st p b => mirrorToggle_core_eq E st p b,
   fun _ _ _ => rfl⟩

/-- C8 witness. -/
def c8State : UiState :=
  { checked := fun _ => false
    mirrorChecked := fun _ => false
    selection := []
    hidden := []
    searchValue := "a"
    results := ["a.mp4"]
    wrapperHidden := false
    listHidden := false
    noResultsHidden := true
    wired := true }

theorem C8_witness :
    mirrorToggle ["a.mp4"] c8State "a.mp4" true
      = nativeToggle ["a.mp4"] c8State "a.mp4" true :=
  C8_mirrorRemoveEquivalence.1 ["a.mp4"] c8State "a.mp4" true (by decide)

/-! ## C2: a missing search surface disables far more than the search -/

theorem syncWith_wired (b : Bool) (p : String) (st : UiState) :
    (syncWith b p st).wired = st.wired := by
  unfold syncWith
  split
  · rfl
  · rfl

theorem syncFold_wired (entries : List (String × Bool)) :
    ∀ st : UiState,
      (entries.foldl (fun s e => syncWith e.2 e.1 s) st).wired = st.wired := by
  induction entries with
  | nil => intro st; rfl
  | cons e es ih =>
    intro st
    rw [List.foldl_cons, ih, syncWith_wired]

theorem applyInitialOrderOp_wired (st : UiState) (v : JsVal) (st' : UiState)
    (h : applyInitialOrderOp st v = .ok st') : st'.wired = st.wired := by
  unfold applyInitialOrderOp at h
  cases happ : applyInitialOrder st.selection v with
  | error e => rw [happ] at h; exact Except.noConfusion h
  | ok sel' =>
    rw [happ] at h
    simp only [Except.ok.injEq] at h
    rw [← h]

/-- The page rendered for the C2 counterexample: one catalog entry whose
checkbox the server rendered checked, and no search elements. -/
def c2Page : PageConfig :=
  { entries := [("videos/a.mp4", true)]
    searchPresent := false
    initAttr := .absent
    searchValue0 := ""
    wrapperHidden0 := true
    listHidden0 := false
    noResultsHidden0 := true }

/-- C2 counterexample. The claim says that with no search box the other
components still activate: the Selection Model would hold the checked
entry `videos/a.mp4` and the serializer would emit its hidden field. In
the code, the guard at playlist_form.js:377 returns from the whole
`DOMContentLoaded` handler *before* the checkbox listeners are wired
(line 488), before the initial per-entry sync, and before
`applyInitialOrder()` (line 500): nothing is wired, the selection stays
empty, and no hidden field is produced. -/
theorem C2_counterexample :
    pageSummary (initPage c2Page) = (false, [], [])
    ∧ (pageSummary (initPage c2Page)).2.1 ≠ ["videos/a.mp4"]
    ∧ (pageSummary (initPage c2Page)).2.2 ≠ [("ordered_videos", "videos/a.mp4")] := by
  refine ⟨rfl, by decide, by decide⟩

/-- C2 amended: when the search input, results wrapper, or results list is
missing, the handler returns at the guard before the selection engine is
set up — the toggle listeners stay unwired, the Selection Model stays
empty, and no hidden fields are produced (only the preview modal and
folder toggles, wired before the guard behind their own element checks,
still activate). When the search elements are present, initialization
completes wired. -/
theorem C2_searchGuard_amended :
    (∀ cfg : PageConfig, cfg.searchPresent = false →
        pageSummary (initPage cfg) = (false, [], []))
    ∧ (∀ (cfg : PageConfig) (st0 : UiState), cfg.searchPresent = true →
        initPage cfg = .ok st0 → st0.wired = true) := by
  constructor
  · intro cfg h
    unfold initPage
    dsimp only
    rw [if_pos h]
    rfl
  · intro cfg st0 hs hinit
    unfold initPage at hinit
    dsimp only at hinit
    rw [if_neg (by simp [hs])] at hinit
    have hw := applyInitialOrderOp_wired _ _ _ hinit
    rw [hw, syncFold_wired]

/-- C2 witness. -/
theorem C2_witness : pageSummary (initPage c2Page) = (false, [], []) :=
  C2_searchGuard_amended.1 c2Page rfl

/-! ## C4: toggle/selection equivalence (invariant A) -/

/-- Invariant A plus the no-duplicates invariant B it needs: the selection
is duplicate-free, and an id is selected exactly when it is a catalog id
whose native checkbox is on. -/
def SelInv (ids : List String) (st : UiState) : Prop :=
  st.selection.Nodup
  ∧ ∀ x : String, x ∈ st.selection ↔ (x ∈ ids ∧ st.checked x = true)

theorem syncWith_checked (b : Bool) (p : String) (st : UiState) :
    (syncWith b p st).checked = st.checked := by
  unfold syncWith
  split
  · rfl
  · rfl

theorem syncFold_checked (entries : List (String × Bool)) :
    ∀ st : UiState,
      (entries.foldl (fun s e => syncWith e.2 e.1 s) st).checked = st.checked := by
  induction entries with
  | nil => intro st; rfl
  | cons e es ih =>
    intro st
    rw [List.foldl_cons, ih, syncWith_checked]

/-- The initial per-entry sync loop appends exactly the checked entries, in
encounter order, after whatever was selected before. -/
theorem syncFold_selection (entries : List (String × Bool)) :
    ∀ st : UiState,
      (∀ e ∈ entries, e.1 ≠ "") →
      (∀ e ∈ entries, e.1 ∉ st.selection) →
      (entries.map Prod.fst).Nodup →
      (entries.foldl (fun s e => syncWith e.2 e.1 s) st).selection
        = st.selection ++ (entries.filter (fun e => e.2)).map Prod.fst := by
  induction entries with
  | nil => intro st _ _ _; simp
  | cons f rest ih =>
    intro st hne hnotin hnd
    rw [List.foldl_cons]
    rw [List.map_cons, List.nodup_cons] at hnd
    have hf1 : f.1 ≠ "" := hne f (List.mem_cons_self f rest)
    have hfnot : f.1 ∉ st.selection := hnotin f (List.mem_cons_self f rest)
    have hsel : (syncWith f.2 f.1 st).selection
        = if f.2 = true then st.selection ++ [f.1] else st.selection := by
      unfold syncWith
      rw [if_neg hf1]
      dsimp only
      cases hb : f.2 with
      | true => simp [syncSelectedEntry, contains_eq_decide_mem, hfnot]
      | false => simp [syncSelectedEntry, contains_eq_decide_mem, hfnot]
    have hrest : ∀ e ∈ rest, e.1 ∉ (syncWith f.2 f.1 st).selection := by
      intro e he
      rw [hsel]
      have h1 : e.1 ∉ st.selection := hnotin e (List.mem_cons_of_mem f he)
      have h2 : e.1 ≠ f.1 := by
        intro hc
        refine hnd.1 ?_
        rw [← hc]
        exact List.mem_map.mpr ⟨e, he, rfl⟩
      split
      · simp [List.mem_append, h1, h2]
      · exact h1
    have hmain := ih (syncWith f.2 f.1 st)
      (fun e he => hne e (List.mem_cons_of_mem f he)) hrest hnd.2
    rw [hmain, hsel, List.filter_cons]
    cases hb : f.2 with
    | true => simp [List.append_assoc]
    | false => simp

/-- Membership in the checked-filtered id list is membership plus the
`initChecked` lookup, for duplicate-free catalog ids. -/
theorem mem_checkedIds_iff (entries : List (String × Bool)) :
    (entries.map Prod.fst).Nodup → ∀ x : String,
      (x ∈ (entries.filter (fun e => e.2)).map Prod.fst
        ↔ (x ∈ entries.map Prod.fst ∧ initChecked entries x = true)) := by
  induction entries with
  | nil => intro _ x; simp [initChecked]
  | cons f rest ih =>
    intro hnd x
    rw [List.map_cons, List.nodup_cons] at hnd
    by_cases hx : x = f.1
    · subst hx
      have hfind : initChecked (f :: rest) f.1 = f.2 := by
        unfold initChecked
        rw [List.find?_cons_of_pos _ (by simp)]
      cases hb : f.2 with
      | true => simp [List.filter_cons, hb, hfind]
      | false =>
        have hnot : f.1 ∉ (rest.filter (fun e => e.2)).map Prod.fst := by
          intro hc
          rcases List.mem_map.mp hc with ⟨e, he, hefst⟩
          exact hnd.1 (List.mem_map.mpr ⟨e, List.mem_of_mem_filter he, hefst⟩)
        simp [List.filter_cons, hb, hfind, hnot]
    · have hfind : initChecked (f :: rest) x = initChecked rest x := by
        unfold initChecked
        rw [List.find?_cons_of_neg _ (by simp [Ne.symm hx])]
      have hih := ih hnd.2 x
      cases hb : f.2 with
      | true => simp [List.filter_cons, hb, hfind, hx, hih]
      | false => simp [List.filter_cons, hb, hfind, hx, hih]

/-- One `syncSelectedEntry` run re-establishes invariant A at the toggled
id and preserves it everywhere else. `u` is the page state as the listener
sees it (the checkbox already set to `b`). -/
theorem syncWith_SelInv (ids : List String) (u : UiState) (p : String) (b : Bool)
    (hp : p ≠ "") (hpin : p ∈ ids) (hcp : u.checked p = b)
    (hnd : u.selection.Nodup)
    (hiff : ∀ x, x ≠ p → (x ∈ u.selection ↔ (x ∈ ids ∧ u.checked x = true))) :
    SelInv ids (syncWith b p u) := by
  unfold syncWith
  rw [if_neg hp]
  refine ⟨?nodup, ?iff⟩
  case nodup =>
    show (syncSelectedEntry b p u.selection).Nodup
    by_cases hm : p ∈ u.selection
    · cases b with
      | true =>
        have heq : syncSelectedEntry true p u.selection = u.selection := by
          simp [syncSelectedEntry, contains_eq_decide_mem, hm]
        rw [heq]; exact hnd
      | false =>
        have heq : syncSelectedEntry false p u.selection = u.selection.erase p := by
          simp [syncSelectedEntry, contains_eq_decide_mem, hm]
        rw [heq]; exact hnd.erase p
    · cases b with
      | true =>
        have heq : syncSelectedEntry true p u.selection = u.selection ++ [p] := by
          simp [syncSelectedEntry, contains_eq_decide_mem, hm]
        rw [heq, List.nodup_append]
        refine ⟨hnd, List.nodup_singleton p, ?_⟩
        intro a ha hb
        rw [List.mem_singleton] at hb
        exact hm (hb ▸ ha)
      | false =>
        have heq : syncSelectedEntry false p u.selection = u.selection := by
          simp [syncSelectedEntry, contains_eq_decide_mem, hm]
        rw [heq]; exact hnd
  case iff =>
    intro x
    show x ∈ syncSelectedEntry b p u.selection ↔ (x ∈ ids ∧ u.checked x = true)
    by_cases hxp : x = p
    · subst hxp
      cases b with
      | true =>
        constructor
        · intro _
          exact ⟨hpin, hcp⟩
        · intro _
          by_cases hm : x ∈ u.selection
          · have heq : syncSelectedEntry true x u.selection = u.selection := by
              simp [syncSelectedEntry, contains_eq_decide_mem, hm]
            rw [heq]; exact hm
          · have heq : syncSelectedEntry true x u.selection = u.selection ++ [x] := by
              simp [syncSelectedEntry, contains_eq_decide_mem, hm]
            rw [heq]
            simp
      | false =>
        constructor
        · intro hmem
          exfalso
          by_cases hm : x ∈ u.selection
          · have heq : syncSelectedEntry false x u.selection = u.selection.erase x := by
              simp [syncSelectedEntry, contains_eq_decide_mem, hm]
            rw [heq] at hmem
            exact (hnd.mem_erase_iff.mp hmem).1 rfl
          · have heq : syncSelectedEntry false x u.selection = u.selection := by
              simp [syncSelectedEntry, contains_eq_decide_mem, hm]
            rw [heq] at hmem
            exact hm hmem
        · rintro ⟨-, hchk⟩
          rw [hcp] at hchk
          exact absurd hchk (by simp)
    · have hmemiff : (x ∈ syncSelectedEntry b p u.selection) ↔ x ∈ u.selection := by
        cases b with
        | true =>
          by_cases hm : p ∈ u.selection
          · simp [syncSelectedEntry, contains_eq_decide_mem, hm]
          · simp [syncSelectedEntry, contains_eq_decide_mem, hm, hxp]
        | false =>
          by_cases hm : p ∈ u.selection
          · simp [syncSelectedEntry, contains_eq_decide_mem, hm,
              List.mem_erase_of_ne hxp]
          · simp [syncSelectedEntry, contains_eq_decide_mem, hm]
      rw [hmemiff]
      exact hiff x hxp

theorem changeListener_SelInv (E ids : List String) (u : UiState) (p : String) (b : Bool)
    (hp : p ≠ "") (hpin : p ∈ ids) (hcp : u.checked p = b)
    (hnd : u.selection.Nodup)
    (hiff : ∀ x, x ≠ p → (x ∈ u.selection ↔ (x ∈ ids ∧ u.checked x = true))) :
    SelInv ids (changeListener E u p) := by
  unfold changeListener
  dsimp only
  rw [hcp]
  have hsync := syncWith_SelInv ids u p b hp hpin hcp hnd hiff
  split
  · exact hsync
  · have hcore := updateResults_core_eq E (syncWith b p u)
    constructor
    · rw [hcore.1]
      exact hsync.1
    · intro x
      rw [hcore.1, hcore.2.2.1]
      exact hsync.2 x

theorem stepEv_SelInv (E ids : List String) (st : UiState) (ev : ToggleEv)
    (hp : evPath ev ≠ "") (hpin : evPath ev ∈ ids) (hinv : SelInv ids st) :
    SelInv ids (stepEv E st ev) := by
  cases ev with
  | nativeEv p b =>
    refine changeListener_SelInv E ids _ p b hp hpin ?_ hinv.1 ?_
    · show (if p = p then b else st.checked p) = b
      exact if_pos rfl
    · intro x hxp
      show x ∈ st.selection ↔ (x ∈ ids ∧ (if x = p then b else st.checked x) = true)
      rw [if_neg hxp]
      exact hinv.2 x
  | mirrorEv p b =>
    refine changeListener_SelInv E ids _ p b hp hpin ?_ hinv.1 ?_
    · show (if p = p then b else st.checked p) = b
      exact if_pos rfl
    · intro x hxp
      show x ∈ st.selection ↔ (x ∈ ids ∧ (if x = p then b else st.checked x) = true)
      rw [if_neg hxp]
      exact hinv.2 x
  | removeEv p =>
    refine changeListener_SelInv E ids _ p false hp hpin ?_ hinv.1 ?_
    · show (if p = p then false else st.checked p) = false
      exact if_pos rfl
    · intro x hxp
      show x ∈ st.selection ↔ (x ∈ ids ∧ (if x = p then false else st.checked x) = true)
      rw [if_neg hxp]
      exact hinv.2 x

theorem applyInitialOrderOp_SelInv (ids : List String) (st : UiState) (v : JsVal)
    (st' : UiState) (hok : applyInitialOrderOp st v = .ok st') (hinv : SelInv ids st) :
    SelInv ids st' := by
  unfold applyInitialOrderOp at hok
  cases happ : applyInitialOrder st.selection v with
  | error e => rw [happ] at hok; exact Except.noConfusion hok
  | ok sel' =>
    rw [happ] at hok
    simp only [Except.ok.injEq] at hok
    rw [← hok]
    constructor
    · exact applyInitialOrder_ok_nodup _ _ _ happ hinv.1
    · intro x
      show x ∈ sel' ↔ (x ∈ ids ∧ st.checked x = true)
      rw [applyInitialOrder_ok_mem _ _ _ happ x]
      exact hinv.2 x

/-- The initial sync loop, started from an empty selection whose checkbox
states come from the server render, establishes invariant A. -/
theorem syncFold_from_empty (entries : List (String × Bool)) (st : UiState)
    (hsel : st.selection = [])
    (hne : ∀ e ∈ entries, e.1 ≠ "")
    (hnd : (entries.map Prod.fst).Nodup)
    (hchk : st.checked = initChecked entries) :
    SelInv (entries.map Prod.fst)
      (entries.foldl (fun s e => syncWith e.2 e.1 s) st) := by
  have hnotin : ∀ e ∈ entries, e.1 ∉ st.selection := by
    intro e he
    rw [hsel]
    exact List.not_mem_nil e.1
  have hfoldsel := syncFold_selection entries st hne hnotin hnd
  have hfoldchk := syncFold_checked entries st
  constructor
  · rw [hfoldsel, hsel, List.nil_append]
    exact hnd.sublist ((List.filter_sublist entries).map Prod.fst)
  · intro x
    rw [hfoldsel, hsel, List.nil_append, hfoldchk, hchk]
    exact mem_checkedIds_iff entries hnd x

theorem initPage_SelInv (cfg : PageConfig) (st0 : UiState)
    (hs : cfg.searchPresent = true)
    (hne : ∀ e ∈ cfg.entries, e.1 ≠ "")
    (hnd : (cfg.entries.map Prod.fst).Nodup)
    (hinit : initPage cfg = .ok st0) :
    SelInv (cfg.entries.map Prod.fst) st0 := by
  unfold initPage at hinit
  dsimp only at hinit
  rw [if_neg (by simp [hs])] at hinit
  refine applyInitialOrderOp_SelInv _ _ _ _ hinit ?_
  exact syncFold_from_empty cfg.entries _ rfl hne hnd rfl

theorem runEvents_SelInv (E ids : List String) (evs : List ToggleEv) :
    ∀ st : UiState,
      (∀ ev ∈ evs, evPath ev ≠ "" ∧ evPath ev ∈ ids) →
      SelInv ids st → SelInv ids (runEvents E st evs) := by
  induction evs with
  | nil => intro st _ h; exact h
  | cons ev evs ih =>
    intro st hev h
    have hstep : runEvents E st (ev :: evs) = runEvents E (stepEv E st ev) evs := rfl
    rw [hstep]
    refine ih _ (fun e he => hev e (List.mem_cons_of_mem ev he)) ?_
    have hhd := hev ev (List.mem_cons_self ev evs)
    exact stepEv_SelInv E ids st ev hhd.1 hhd.2 h

/-- C4: invariant A. From a freshly initialized page (search surface
present, unique non-empty catalog paths), after any sequence of
toggle-change events from the three surfaces — native checkbox, search
mirror proxy, selected-panel remove button — an id is in the Selection
Model exactly when it is a catalog id whose native checkbox is on. -/
theorem C4_invariantA (cfg : PageConfig) (evs : List ToggleEv) (st0 : UiState)
    (hs : cfg.searchPresent = true)
    (hne : ∀ e ∈ cfg.entries, e.1 ≠ "")
    (hnd : (cfg.entries.map Prod.fst).Nodup)
    (hev : ∀ ev ∈ evs, evPath ev ∈ cfg.entries.map Prod.fst)
    (hinit : initPage cfg = .ok st0) :
    ∀ (E : List String) (x : String),
      x ∈ (runEvents E st0 evs).selection
        ↔ (x ∈ cfg.entries.map Prod.fst
            ∧ (runEvents E st0 evs).checked x = true) := by
  intro E x
  have hinv := initPage_SelInv cfg st0 hs hne hnd hinit
  have hevs : ∀ ev ∈ evs, evPath ev ≠ "" ∧ evPath ev ∈ cfg.entries.map Prod.fst := by
    intro ev he
    refine ⟨?_, hev ev he⟩
    rcases List.mem_map.mp (hev ev he) with ⟨e, hemem, hefst⟩
    rw [← hefst]
    exact hne e hemem
  exact (runEvents_SelInv E _ evs st0 hevs hinv).2 x

/-- C4 witness. -/
def c4Page : PageConfig :=
  { entries := [("a.mp4", true), ("b.mp4", false)]
    searchPresent := true
    initAttr := .absent
    searchValue0 := ""
    wrapperHidden0 := true
    listHidden0 := false
    noResultsHidden0 := true }

def c4Init : UiState :=
  match initPage c4Page with
  | .ok st => st
  | .error _ => default

theorem C4_witness :
    "b.mp4" ∈ (runEvents ["a.mp4", "b.mp4"] c4Init
        [.mirrorEv "b.mp4" true, .removeEv "a.mp4"]).selection
      ↔ ("b.mp4" ∈ c4Page.entries.map Prod.fst
          ∧ (runEvents ["a.mp4", "b.mp4"] c4Init
              [.mirrorEv "b.mp4" true, .removeEv "a.mp4"]).checked "b.mp4" = true) :=
  C4_invariantA c4Page [.mirrorEv "b.mp4" true, .removeEv "a.mp4"] c4Init rfl
    (by decide) (by decide) (by decide) rfl ["a.mp4", "b.mp4"] "b.mp4"

end BeamerPi

